import Mathlib

/-
Shallow embedding of the CLAHE core of the StencilGeneratorReplit repository.

The two engine variants are embedded from their Python sources:
  * `server/numpy_clahe.py`          (`apply_clahe_numpy`, `rgb_to_lab`, `lab_to_rgb`,
                                      `apply_clahe_processing`)
  * `server/clahe_opencv_headless.py` (`apply_clahe_exact_opencv`, `rgb_to_lab_exact`,
                                      `lab_to_rgb_exact`, `apply_clahe_processing`)
  * `server/clahe_processor.py`       (`main`, the CLI argument check)

Python floats are modelled by `ℚ` inside the CLAHE engines (every operation there is
field arithmetic on small integers, where binary64 computes exactly the same branch
decisions and orderings proved below) and by `ℝ` in the colour-conversion stages,
which use transcendental powers.  Python's `int(...)` truncation toward zero is
`pyInt`; a NumPy cast of a float to `uint8` (a C cast: truncation, then wrap-around
modulo 256) is `toUint8Q`.  A Python exception (`IndexError`, `ZeroDivisionError`)
is modelled by `Option.none`.
-/

set_option maxHeartbeats 1000000
set_option maxRecDepth 100000

/-- Python `int(q)`: truncation toward zero. -/
def pyInt (q : ℚ) : ℤ :=
  if q < 0 then -⌊-q⌋ else ⌊q⌋

/-- NumPy cast of a float to `uint8`: truncate toward zero, then wrap modulo 256. -/
def toUint8Q (q : ℚ) : ℕ :=
  (pyInt q % 256).toNat

/-- Number of pixels with value `v` in the rectangle `[y0, y1) × [x0, x1)` of `img`.
Embeds both `np.histogram(tile, bins=256, range=(0, 256))` (numpy_clahe.py line 90)
and `np.bincount(tile.flatten(), minlength=256)` (clahe_opencv_headless.py line 47)
evaluated at bin `v`, for an 8-bit tile. -/
def countIn (img : ℕ → ℕ → ℕ) (y0 y1 x0 x1 v : ℕ) : ℕ :=
  ((List.range (y1 - y0)).map (fun dy =>
    ((List.range (x1 - x0)).filter (fun dx => img (y0 + dy) (x0 + dx) == v)).length)).sum

/-- Total histogram mass above the cap `k`:
`excess = Σ_i max(0, hist[i] - k)` (numpy_clahe.py line 94; the accumulation loop of
clahe_opencv_headless.py lines 53-57). `ℕ` subtraction is the truncated maximum. -/
def excessOf (hist : ℕ → ℕ) (k : ℕ) : ℕ :=
  ∑ i ∈ Finset.range 256, (hist i - k)

/-- The histogram with every bin capped at `k`: `hist = np.minimum(hist, clip_value)`
(numpy_clahe.py line 95; clahe_opencv_headless.py line 57). -/
def clippedHist (hist : ℕ → ℕ) (k : ℕ) : ℕ → ℕ :=
  fun i => min (hist i) k

/-- Clip at `k` and redistribute the excess uniformly: every bin gains
`excess / 256`, and bins `0 .. excess % 256 - 1` gain one more
(numpy_clahe.py lines 97-101; clahe_opencv_headless.py lines 60-67). -/
def clipRedistribute (hist : ℕ → ℕ) (k : ℕ) : ℕ → ℕ :=
  fun i =>
    clippedHist hist k i + excessOf hist k / 256 +
      (if i < excessOf hist k % 256 then 1 else 0)

/-- The headless variant guards redistribution with `if excess > 0`
(clahe_opencv_headless.py line 60); when the excess is zero only the clip runs. -/
def headlessClipStep (hist : ℕ → ℕ) (k : ℕ) : ℕ → ℕ :=
  if 0 < excessOf hist k then clipRedistribute hist k else clippedHist hist k

/-- Cumulative distribution of a histogram: `cdf[i] = Σ_{j ≤ i} hist[j]`
(`np.cumsum`, numpy_clahe.py line 104; clahe_opencv_headless.py line 70). -/
def cdf (hist : ℕ → ℕ) (i : ℕ) : ℕ :=
  ∑ j ∈ Finset.range (i + 1), hist j

/-- `cdf_min = cdf[cdf > 0].min() if np.any(cdf > 0) else 0`
(numpy_clahe.py line 107; clahe_opencv_headless.py line 73). -/
def cdfMin (hist : ℕ → ℕ) : ℕ :=
  match ((List.range 256).map (cdf hist)).filter (fun v => decide (0 < v)) with
  | [] => 0
  | a :: as => as.foldl min a

/-- Per-tile lookup table of `apply_clahe_exact_opencv` (clahe_opencv_headless.py
lines 70-79), stored as floats: when `cdf_max > cdf_min` the normalized CDF scaled
to 255, otherwise the identity ramp `np.arange(256)`. -/
def lutQHeadless (hist : ℕ → ℕ) (i : ℕ) : ℚ :=
  if cdfMin hist < cdf hist 255 then
    ((cdf hist i : ℚ) - (cdfMin hist : ℚ)) / ((cdf hist 255 : ℚ) - (cdfMin hist : ℚ)) * 255
  else (i : ℚ)

/- Tiling of `apply_clahe_exact_opencv` (clahe_opencv_headless.py lines 16-44):
row start `ty * (H // G)`, height `H // G` plus one when `H % G ≠ 0`, end clamped
to the image extent; analogously for columns. -/

/-- Adjusted tile extent `tile_height` of the headless engine (lines 19-26). -/
def thFullH (n G : ℕ) : ℕ :=
  n / G + (if n % G ≠ 0 then 1 else 0)

/-- Tile start coordinate `tile_y * (height // tiles_y)` (line 34). -/
def tileStartH (n G t : ℕ) : ℕ :=
  t * (n / G)

/-- Tile end coordinate `min(y_start + tile_height, height)` (line 35). -/
def tileEndH (n G t : ℕ) : ℕ :=
  min (tileStartH n G t + thFullH n G) n

/-- `tile.size` of the headless engine's tile `(ty, tx)` (line 41). -/
def tileSizeH (H W G ty tx : ℕ) : ℕ :=
  (tileEndH H G ty - tileStartH H G ty) * (tileEndH W G tx - tileStartH W G tx)

/-- Raw histogram of the headless engine's tile `(ty, tx)` (line 47). -/
def tileRawHistH (img : ℕ → ℕ → ℕ) (H W G ty tx : ℕ) (v : ℕ) : ℕ :=
  countIn img (tileStartH H G ty) (tileEndH H G ty)
    (tileStartH W G tx) (tileEndH W G tx) v

/-- `clip_limit_actual = max(1, int(clip_limit * tile_size / 256))`
(clahe_opencv_headless.py line 50). -/
def clipKH (c : ℚ) (n : ℕ) : ℕ :=
  (max 1 (pyInt (c * n / 256))).toNat

/-- The clipped-and-redistributed histogram of the headless engine's tile. -/
def tileFinalHistH (img : ℕ → ℕ → ℕ) (H W : ℕ) (c : ℚ) (G ty tx : ℕ) : ℕ → ℕ :=
  headlessClipStep (tileRawHistH img H W G ty tx) (clipKH c (tileSizeH H W G ty tx))

/-- `lookup_tables[ty, tx, i]` of the headless engine: zero for an empty tile
(the `continue` at line 44 leaves the zero initialization), otherwise the
normalized-CDF table. -/
def lutH (img : ℕ → ℕ → ℕ) (H W : ℕ) (c : ℚ) (G ty tx i : ℕ) : ℚ :=
  if tileSizeH H W G ty tx = 0 then 0
  else lutQHeadless (tileFinalHistH img H W c G ty tx) i

/-- Unclamped tile-center coordinate of the headless remap stage:
`ty = (y + 0.5) / (height / tiles_y) - 0.5` with float division
(clahe_opencv_headless.py lines 87-88). -/
def tileCoordRawH (n G i : ℕ) : ℚ :=
  ((i : ℚ) + 1 / 2) / ((n : ℚ) / (G : ℚ)) - 1 / 2

/-- Clamped coordinate `ty = max(0, min(tiles_y - 1, ty))` (lines 91-92). -/
def tileCoordH (n G i : ℕ) : ℚ :=
  max 0 (min ((G : ℚ) - 1) (tileCoordRawH n G i))

/-- Integer tile index `ty_int = int(ty)` of the headless remap stage (line 95). -/
def tileIdxH (n G i : ℕ) : ℕ :=
  (pyInt (tileCoordH n G i)).toNat

/-- Fractional weight `ty_frac = ty - ty_int` (line 99). -/
def tileFracH (n G i : ℕ) : ℚ :=
  tileCoordH n G i - (tileIdxH n G i : ℚ)

/-- Neighbour index `ty_next = min(ty_int + 1, tiles_y - 1)` (line 103). -/
def tileNextH (n G i : ℕ) : ℕ :=
  min (tileIdxH n G i + 1) (G - 1)

/-- Bilinearly interpolated remapped value of one pixel
(clahe_opencv_headless.py lines 84-120). -/
def remapPixelH (img : ℕ → ℕ → ℕ) (H W : ℕ) (c : ℚ) (G y x : ℕ) : ℚ :=
  let v := img y x
  let tl := lutH img H W c G (tileIdxH H G y) (tileIdxH W G x) v
  let tr := lutH img H W c G (tileIdxH H G y) (tileNextH W G x) v
  let bl := lutH img H W c G (tileNextH H G y) (tileIdxH W G x) v
  let br := lutH img H W c G (tileNextH H G y) (tileNextH W G x) v
  let fx := tileFracH W G x
  let fy := tileFracH H G y
  (tl * (1 - fx) + tr * fx) * (1 - fy) + (bl * (1 - fx) + br * fx) * fy

/-- `apply_clahe_exact_opencv`: the remapped image, clipped to `[0, 255]` and cast
to `uint8` (clahe_opencv_headless.py line 122). -/
def applyClaheHeadless (img : ℕ → ℕ → ℕ) (H W : ℕ) (c : ℚ) (G : ℕ) : ℕ → ℕ → ℕ :=
  fun y x => (pyInt (max 0 (min 255 (remapPixelH img H W c G y x)))).toNat

/- The numpy engine `apply_clahe_numpy` (numpy_clahe.py lines 66-145). -/

/-- Tile start `tile_y * tile_height` with `tile_height = height // tile_grid_size`
(numpy_clahe.py lines 73, 82). -/
def tileStartN (n G t : ℕ) : ℕ :=
  t * (n / G)

/-- Tile end `min(start_y + tile_height, height)` (line 84). -/
def tileEndN (n G t : ℕ) : ℕ :=
  min (tileStartN n G t + n / G) n

/-- `tile.size` of the numpy engine's tile `(ty, tx)`. -/
def tileSizeN (H W G ty tx : ℕ) : ℕ :=
  (tileEndN H G ty - tileStartN H G ty) * (tileEndN W G tx - tileStartN W G tx)

/-- Raw histogram of the numpy engine's tile `(ty, tx)` (line 90). -/
def tileRawHistN (img : ℕ → ℕ → ℕ) (H W G ty tx : ℕ) (v : ℕ) : ℕ :=
  countIn img (tileStartN H G ty) (tileEndN H G ty)
    (tileStartN W G tx) (tileEndN W G tx) v

/-- `clip_value = int((clip_limit * tile.size) / 256)` (numpy_clahe.py line 93) —
note: no `max(1, …)` lower bound in this variant. -/
def clipValueNumpy (c : ℚ) (n : ℕ) : ℤ :=
  pyInt (c * n / 256)

/-- `clip_limit_actual = max(1, int(clip_limit * tile_size / 256))`
(clahe_opencv_headless.py line 50), kept as the Python `int`. -/
def clipValueHeadless (c : ℚ) (n : ℕ) : ℤ :=
  max 1 (pyInt (c * n / 256))

/-- The clip count the specification prescribes: `k = max(1, ⌊c · N / 256⌋)`
(modelled from the spec's words, for comparison with the code's clip counts). -/
def specClipCount (c : ℚ) (n : ℕ) : ℤ :=
  max 1 ⌊c * n / 256⌋

/-- `lookup_tables[ty, tx, v]` of the numpy engine (numpy_clahe.py lines 104-113):
normalized CDF scaled by 255 and cast to `uint8` when
`denominator = tile.size - cdf_min > 0`, otherwise the identity ramp. -/
def lutNumpy8 (img : ℕ → ℕ → ℕ) (H W : ℕ) (c : ℚ) (G ty tx v : ℕ) : ℕ :=
  let hist := clipRedistribute (tileRawHistN img H W G ty tx)
      (clipValueNumpy c (tileSizeN H W G ty tx)).toNat
  let n := tileSizeN H W G ty tx
  if 0 < n - cdfMin hist then
    toUint8Q (((cdf hist v : ℚ) - (cdfMin hist : ℚ)) / ((n - cdfMin hist : ℕ) : ℚ) * 255)
  else v

/-- Tile-center coordinate of the numpy remap stage:
`ty = (y + 0.5) / tile_height - 0.5` with `tile_height = height // tile_grid_size`,
an integer floor division (numpy_clahe.py lines 73, 121). -/
def tileCoordN (n G i : ℕ) : ℚ :=
  ((i : ℚ) + 1 / 2) / ((n / G : ℕ) : ℚ) - 1 / 2

/-- `y_low = max(int(np.floor(ty)), 0)` (line 125) — clamped from below only. -/
def tileLowN (n G i : ℕ) : ℕ :=
  (max ⌊tileCoordN n G i⌋ 0).toNat

/-- Interpolation weight `wy = ty - y_low` (line 131). -/
def tileWeightN (n G i : ℕ) : ℚ :=
  tileCoordN n G i - (tileLowN n G i : ℚ)

/-- One pixel of the numpy remap stage (numpy_clahe.py lines 118-143).
`none` models a Python exception: `ZeroDivisionError` when a tile extent is zero,
`IndexError` when the unclamped low tile index reaches the `G × G` table bound. -/
def remapPixelN (img : ℕ → ℕ → ℕ) (H W : ℕ) (c : ℚ) (G y x : ℕ) : Option ℕ :=
  if H / G = 0 ∨ W / G = 0 then none
  else
    let yLow := tileLowN H G y
    let yHigh := min (yLow + 1) (G - 1)
    let xLow := tileLowN W G x
    let xHigh := min (xLow + 1) (G - 1)
    if yLow < G ∧ xLow < G then
      let v := img y x
      let l00 : ℚ := (lutNumpy8 img H W c G yLow xLow v : ℚ)
      let l10 : ℚ := (lutNumpy8 img H W c G yLow xHigh v : ℚ)
      let l01 : ℚ := (lutNumpy8 img H W c G yHigh xLow v : ℚ)
      let l11 : ℚ := (lutNumpy8 img H W c G yHigh xHigh v : ℚ)
      let wy := tileWeightN H G y
      let wx := tileWeightN W G x
      some (toUint8Q ((1 - wy) * ((1 - wx) * l00 + wx * l10) +
        wy * ((1 - wx) * l01 + wx * l11)))
    else none

/-- `apply_clahe_numpy` as a whole: the row-major list of remapped pixel values,
`none` when any pixel raises (numpy loops `for y in range(height)` then
`for x in range(width)`, lines 118-119). -/
def applyClaheNumpyOpt (img : ℕ → ℕ → ℕ) (H W : ℕ) (c : ℚ) (G : ℕ) :
    Option (List (List ℕ)) :=
  (List.range H).mapM (fun y => (List.range W).mapM (fun x => remapPixelN img H W c G y x))

/- Colour conversions.  These stages use transcendental powers (`x ^ 2.4`,
cube roots), so they are embedded over `ℝ`.  An RGB8 image is
`ℕ → ℕ → Fin 3 → ℕ` (channels R, G, B), a LAB image is `ℕ → ℕ → Fin 3 → ℝ`
(channels L, a, b). -/

/-- Python truncation toward zero on `ℝ` (`int(...)`, and the C cast a NumPy
`astype` performs). -/
noncomputable def pyTruncR (x : ℝ) : ℤ :=
  if x < 0 then -⌊-x⌋ else ⌊x⌋

/-- NumPy cast of a float to `uint8` over `ℝ`: truncate, then wrap modulo 256. -/
noncomputable def pyUint8R (x : ℝ) : ℕ :=
  (pyTruncR x % 256).toNat

/-- Inverse sRGB companding (numpy_clahe.py lines 13-15; identical in
clahe_opencv_headless.py lines 131-132). -/
noncomputable def srgbInvGamma (v : ℝ) : ℝ :=
  if v > 0.04045 then ((v + 0.055) / 1.055) ^ (2.4 : ℝ) else v / 12.92

/-- Forward sRGB companding (numpy_clahe.py lines 59-61; identical in
clahe_opencv_headless.py lines 192-193). -/
noncomputable def srgbGamma (u : ℝ) : ℝ :=
  if u > 0.0031308 then 1.055 * u ^ ((1 : ℝ) / 2.4) - 0.055 else 12.92 * u

/-- The LAB forward nonlinearity `f` (numpy_clahe.py lines 26-28; identical in
clahe_opencv_headless.py lines 148-149). -/
noncomputable def labFwdF (t : ℝ) : ℝ :=
  if t > 0.008856 then t ^ ((1 : ℝ) / 3) else 7.787 * t + 16 / 116

/-- `rgb_to_lab` of numpy_clahe.py (lines 8-35).  `np.dot(rgb, M)` contracts the
channel axis against the FIRST index of `M`, so the embedded matrix columns are
read down `M`'s rows exactly as the code computes them. -/
noncomputable def rgbToLabNumpy (img : ℕ → ℕ → Fin 3 → ℕ) : ℕ → ℕ → Fin 3 → ℝ :=
  fun y x ch =>
    let r := srgbInvGamma ((img y x 0 : ℝ) / 255)
    let g := srgbInvGamma ((img y x 1 : ℝ) / 255)
    let b := srgbInvGamma ((img y x 2 : ℝ) / 255)
    let X := (r * 0.4124564 + g * 0.2126729 + b * 0.0193339) / 0.95047
    let Y := (r * 0.3575761 + g * 0.7151522 + b * 0.1191920) / 1.0
    let Z := (r * 0.1804375 + g * 0.0721750 + b * 0.9503041) / 1.08883
    if ch = 0 then 116 * labFwdF Y - 16
    else if ch = 1 then 500 * (labFwdF X - labFwdF Y)
    else 200 * (labFwdF Y - labFwdF Z)

/-- The inverse nonlinearity of numpy_clahe.py's `lab_to_rgb` (lines 46-48):
the branch condition is on the f-value itself. -/
noncomputable def labInvFNumpy (t : ℝ) : ℝ :=
  if t > 0.206893 then t ^ (3 : ℕ) else (t - 16 / 116) / 7.787

/-- `lab_to_rgb` of numpy_clahe.py (lines 37-64), with the final
`np.clip(rgb * 255, 0, 255)` and `uint8` cast. -/
noncomputable def labToRgbNumpy (lab : ℕ → ℕ → Fin 3 → ℝ) : ℕ → ℕ → Fin 3 → ℕ :=
  fun y x ch =>
    let fy := (lab y x 0 + 16) / 116
    let fx := fy + lab y x 1 / 500
    let fz := fy - lab y x 2 / 200
    let X := labInvFNumpy fx * 0.95047
    let Y := labInvFNumpy fy * 1.0
    let Z := labInvFNumpy fz * 1.08883
    let r := X * 3.2404542 + Y * (-0.9692660) + Z * 0.0556434
    let g := X * (-1.5371385) + Y * 1.8760108 + Z * (-0.2040259)
    let b := X * (-0.4985314) + Y * 0.0415560 + Z * 1.0572252
    let byte := fun u : ℝ => pyUint8R (max 0 (min 255 (u * 255)))
    if ch = 0 then byte (srgbGamma r)
    else if ch = 1 then byte (srgbGamma g)
    else byte (srgbGamma b)

/-- `rgb_to_lab_exact` of clahe_opencv_headless.py (lines 124-156).
Here `np.dot(rgb, M.T)` applies `M` in the standard row-times-vector
orientation, and only `X` and `Z` are divided by the white point. -/
noncomputable def rgbToLabHeadless (img : ℕ → ℕ → Fin 3 → ℕ) : ℕ → ℕ → Fin 3 → ℝ :=
  fun y x ch =>
    let r := srgbInvGamma ((img y x 0 : ℝ) / 255)
    let g := srgbInvGamma ((img y x 1 : ℝ) / 255)
    let b := srgbInvGamma ((img y x 2 : ℝ) / 255)
    let X := (r * 0.412453 + g * 0.357580 + b * 0.180423) / 0.950456
    let Y := r * 0.212671 + g * 0.715160 + b * 0.072169
    let Z := (r * 0.019334 + g * 0.119193 + b * 0.950227) / 1.088754
    if ch = 0 then 116 * labFwdF Y - 16
    else if ch = 1 then 500 * (labFwdF X - labFwdF Y)
    else 200 * (labFwdF Y - labFwdF Z)

/-- The inverse nonlinearity of `lab_to_rgb_exact` (clahe_opencv_headless.py
lines 167-174): the branch condition is on the CUBE of the f-value. -/
noncomputable def labInvFHeadless (t : ℝ) : ℝ :=
  if t ^ (3 : ℕ) > 0.206893 then t ^ (3 : ℕ) else (t - 16 / 116) / 7.787

/-- `lab_to_rgb_exact` of clahe_opencv_headless.py (lines 158-196). -/
noncomputable def labToRgbHeadless (lab : ℕ → ℕ → Fin 3 → ℝ) : ℕ → ℕ → Fin 3 → ℕ :=
  fun y x ch =>
    let fy := (lab y x 0 + 16) / 116
    let fx := fy + lab y x 1 / 500
    let fz := fy - lab y x 2 / 200
    let X := labInvFHeadless fx * 0.950456
    let Y := labInvFHeadless fy
    let Z := labInvFHeadless fz * 1.088754
    let r := X * 3.240479 + Y * (-1.537150) + Z * (-0.498535)
    let g := X * (-0.969256) + Y * 1.875992 + Z * 0.041556
    let b := X * 0.055648 + Y * (-0.204043) + Z * 1.057311
    let byte := fun u : ℝ => pyUint8R (max 0 (min 255 (u * 255)))
    if ch = 0 then byte (srgbGamma r)
    else if ch = 1 then byte (srgbGamma g)
    else byte (srgbGamma b)

/- The L-channel quantization bracketing the CLAHE engine. -/

/-- The 8-bit L grid fed to the numpy engine:
`l_channel = ((lab_array[:, :, 0] + 16) / 116 * 255).astype(np.uint8)`
(numpy_clahe.py line 163). -/
noncomputable def lQuantNumpy (L : ℝ) : ℕ :=
  pyUint8R ((L + 16) / 116 * 255)

/-- The inverse scaling of the numpy pipeline:
`lab_array[:, :, 0] = (enhanced_l / 255.0 * 116) - 16` (numpy_clahe.py line 169). -/
noncomputable def lDequantNumpy (v : ℕ) : ℝ :=
  (v : ℝ) / 255 * 116 - 16

/-- The 8-bit L grid fed to the headless engine:
`l_channel = lab_array[:, :, 0].astype(np.uint8)` (clahe_opencv_headless.py
line 214) — the L values, in `[0, 100]`, are truncated without rescaling. -/
noncomputable def lQuantHeadless (L : ℝ) : ℕ :=
  pyUint8R L

/-- The headless pipeline writes the engine output back as L directly:
`lab_array[:, :, 0] = enhanced_l.astype(np.float32)` (line 220). -/
noncomputable def lDequantHeadless (v : ℕ) : ℝ :=
  (v : ℝ)

/-- The L-grid quantizer the specification describes:
`round(L * 255 / 100)` clamped into `[0, 255]` (modelled from the spec's words,
for comparison with the code's quantizers). -/
noncomputable def specLQuant (L : ℝ) : ℕ :=
  min 255 (round (L * 255 / 100)).toNat

/-- In-place replacement of the L channel, `lab_array[:, :, 0] = new_l`
(numpy_clahe.py line 169; clahe_opencv_headless.py line 220). -/
noncomputable def labUpdateL (lab : ℕ → ℕ → Fin 3 → ℝ) (newL : ℕ → ℕ → ℝ) :
    ℕ → ℕ → Fin 3 → ℝ :=
  fun y x ch => if ch = 0 then newL y x else lab y x ch

/-- The LAB array the numpy pipeline hands to `lab_to_rgb`
(numpy_clahe.py lines 160-169), `none` when the engine raises. -/
noncomputable def labHandedNumpy (img : ℕ → ℕ → Fin 3 → ℕ) (H W : ℕ) (c : ℚ) (G : ℕ) :
    Option (ℕ → ℕ → Fin 3 → ℝ) :=
  (applyClaheNumpyOpt (fun y x => lQuantNumpy (rgbToLabNumpy img y x 0)) H W c G).map
    (fun rows => labUpdateL (rgbToLabNumpy img)
      (fun y x => lDequantNumpy ((rows.getD y []).getD x 0)))

/-- The numpy pipeline `apply_clahe_processing` up to the saved RGB result. -/
noncomputable def claheProcessedNumpy (img : ℕ → ℕ → Fin 3 → ℕ) (H W : ℕ) (c : ℚ)
    (G : ℕ) : Option (ℕ → ℕ → Fin 3 → ℕ) :=
  (labHandedNumpy img H W c G).map labToRgbNumpy

/-- The LAB array the headless pipeline hands to `lab_to_rgb_exact`
(clahe_opencv_headless.py lines 211-220). -/
noncomputable def labHandedHeadless (img : ℕ → ℕ → Fin 3 → ℕ) (H W : ℕ) (c : ℚ)
    (G : ℕ) : ℕ → ℕ → Fin 3 → ℝ :=
  labUpdateL (rgbToLabHeadless img)
    (fun y x => lDequantHeadless
      (applyClaheHeadless (fun y x => lQuantHeadless (rgbToLabHeadless img y x 0))
        H W c G y x))

/-- The headless pipeline `apply_clahe_processing` up to the saved RGB result. -/
noncomputable def claheProcessedHeadless (img : ℕ → ℕ → Fin 3 → ℕ) (H W : ℕ) (c : ℚ)
    (G : ℕ) : ℕ → ℕ → Fin 3 → ℕ :=
  labToRgbHeadless (labHandedHeadless img H W c G)

/- The clahe_processor.py command line (lines 65-79). -/

/-- The usage string clahe_processor.py prints (line 69): it documents four
arguments. -/
def usageProcessor : String :=
  "Usage: python clahe_processor.py <input_path> <output_path> <clip_limit> <tile_grid_size>"

/-- Outcome of `main` in clahe_processor.py: either the failure JSON is printed
and the process exits with the given code, or `apply_clahe_processing` is
reached with the four raw argument strings. -/
inductive ProcessorOutcome where
  | failJson : String → ℕ → ProcessorOutcome
  | processed : String → String → String → String → ProcessorOutcome

/-- `main` of clahe_processor.py (lines 65-79): `if len(sys.argv) != 6`, print the
failure JSON with the usage string and exit 1; otherwise process. -/
def claheProcessorMain (argv : List String) : ProcessorOutcome :=
  if argv.length ≠ 6 then ProcessorOutcome.failJson usageProcessor 1
  else ProcessorOutcome.processed (argv.getD 1 "") (argv.getD 2 "")
    (argv.getD 3 "") (argv.getD 4 "")

/-- Whether an invocation of clahe_processor.py reaches the processing path. -/
def reachesProcessing (argv : List String) : Bool :=
  match claheProcessorMain argv with
  | ProcessorOutcome.processed _ _ _ _ => true
  | _ => false

/- Concrete inputs used by the closed theorems below. -/

/-- A 4 × 4 8-bit grid whose top-left 2 × 2 tile holds the four distinct values
100, 110, 120, 130. -/
def img4 : ℕ → ℕ → ℕ :=
  fun y x => 100 + 10 * (2 * y + x)

/-- A constant 8-bit grid of value 77. -/
def img77 : ℕ → ℕ → ℕ :=
  fun _ _ => 77

/-- A constant 8-bit grid of value 128. -/
def constImg10 : ℕ → ℕ → ℕ :=
  fun _ _ => 128

/-- The all-ones histogram (one pixel in every bin). -/
def histOne : ℕ → ℕ :=
  fun _ => 1

/-- A five-element argument vector: the program name followed by the four
arguments the usage string documents. -/
def argvFive : List String :=
  ["clahe_processor.py", "in.png", "out.png", "2.0", "8"]

/-- A constant RGB8 image: every channel of every pixel is 100 (an in-gamut
gray). -/
def img100 : ℕ → ℕ → Fin 3 → ℕ :=
  fun _ _ _ => 100

/-- The pre-companding linear RGB channel values computed inside
`lab_to_rgb_exact` (clahe_opencv_headless.py lines 163-189), exposed so the
out-of-gamut carve-out of the round-trip claim can be decided: a LAB point is
out of gamut for the inverse chain exactly when one of these values leaves
`[0, 1]`. -/
noncomputable def headlessInvLinear (lab : ℕ → ℕ → Fin 3 → ℝ) (y x : ℕ) (ch : Fin 3) : ℝ :=
  let fy := (lab y x 0 + 16) / 116
  let fx := fy + lab y x 1 / 500
  let fz := fy - lab y x 2 / 200
  let X := labInvFHeadless fx * 0.950456
  let Y := labInvFHeadless fy
  let Z := labInvFHeadless fz * 1.088754
  if ch = 0 then X * 3.240479 + Y * (-1.537150) + Z * (-0.498535)
  else if ch = 1 then X * (-0.969256) + Y * 1.875992 + Z * 0.041556
  else X * 0.055648 + Y * (-0.204043) + Z * 1.057311

/- Helper lemmas. -/

theorem floorQEval (q : ℚ) (z : ℤ) (h1 : (z : ℚ) ≤ q) (h2 : q < z + 1) : ⌊q⌋ = z :=
  Int.floor_eq_iff.2 ⟨h1, h2⟩

theorem pyInt_eq_floor (q : ℚ) (h : 0 ≤ q) : pyInt q = ⌊q⌋ := by
  unfold pyInt
  rw [if_neg (not_lt.2 h)]

theorem pyIntNonnegEval (q : ℚ) (z : ℤ) (h0 : 0 ≤ q) (h1 : (z : ℚ) ≤ q)
    (h2 : q < z + 1) : pyInt q = z := by
  rw [pyInt_eq_floor q h0]
  exact floorQEval q z h1 h2

theorem foldlMinLeSelf : ∀ (l : List ℕ) (a : ℕ), l.foldl min a ≤ a
  | [], _ => le_refl _
  | b :: bs, a => le_trans (foldlMinLeSelf bs (min a b)) (min_le_left a b)

theorem foldlMinLeMem : ∀ (l : List ℕ) (a x : ℕ), x ∈ l → l.foldl min a ≤ x
  | [], _, x, hx => absurd hx (List.not_mem_nil x)
  | b :: bs, a, x, hx => by
    rcases List.mem_cons.1 hx with h | h
    · subst h
      exact le_trans (foldlMinLeSelf bs (min a x)) (min_le_right a x)
    · exact foldlMinLeMem bs (min a b) x h

theorem cdf_mono (hist : ℕ → ℕ) {i j : ℕ} (h : i ≤ j) : cdf hist i ≤ cdf hist j := by
  unfold cdf
  exact Finset.sum_le_sum_of_subset (Finset.range_subset.2 (by omega))

theorem cdfMin_le_cdf (hist : ℕ → ℕ) (i : ℕ) (hi : i < 256) (hpos : 0 < cdf hist i) :
    cdfMin hist ≤ cdf hist i := by
  have hmem : cdf hist i ∈
      ((List.range 256).map (cdf hist)).filter (fun v => decide (0 < v)) := by
    rw [List.mem_filter]
    exact ⟨List.mem_map_of_mem _ (List.mem_range.2 hi), by simpa using hpos⟩
  unfold cdfMin
  cases hfil : ((List.range 256).map (cdf hist)).filter (fun v => decide (0 < v)) with
  | nil =>
    rw [hfil] at hmem
    exact absurd hmem (List.not_mem_nil _)
  | cons a as =>
    rw [hfil] at hmem
    show as.foldl min a ≤ cdf hist i
    rcases List.mem_cons.1 hmem with h | h
    · rw [h]
      exact foldlMinLeSelf as a
    · exact foldlMinLeMem as a _ h

theorem lutFormulaFacts (a b M m : ℕ) (hab : a ≤ b) (hbM : b ≤ M) (hm : m < M) :
    ((a : ℚ) - m) / ((M : ℚ) - m) * 255 ≤ ((b : ℚ) - m) / ((M : ℚ) - m) * 255 ∧
      ((b : ℚ) - m) / ((M : ℚ) - m) * 255 ≤ 255 ∧
      (m ≤ a → 0 ≤ ((a : ℚ) - m) / ((M : ℚ) - m) * 255) := by
  have hd : (0 : ℚ) < (M : ℚ) - m := by
    rw [sub_pos]
    exact_mod_cast hm
  refine ⟨?_, ?_, ?_⟩
  · apply mul_le_mul_of_nonneg_right _ (by norm_num : (0 : ℚ) ≤ 255)
    apply div_le_div_of_nonneg_right ?_ hd.le
    apply sub_le_sub_right
    exact_mod_cast hab
  · have hnum : ((b : ℚ) - m) ≤ ((M : ℚ) - m) := by
      apply sub_le_sub_right
      exact_mod_cast hbM
    have hq : ((b : ℚ) - m) / ((M : ℚ) - m) ≤ 1 := by
      rw [div_le_one hd]
      exact hnum
    calc ((b : ℚ) - m) / ((M : ℚ) - m) * 255 ≤ 1 * 255 :=
        mul_le_mul_of_nonneg_right hq (by norm_num)
      _ = 255 := one_mul _
  · intro hma
    have h0 : (0 : ℚ) ≤ (a : ℚ) - m := by
      rw [sub_nonneg]
      exact_mod_cast hma
    exact mul_nonneg (div_nonneg h0 (le_of_lt hd)) (by norm_num)

theorem remap22Some (c : ℚ) (y x : ℕ) (hy : y < 2) (hx : x < 2) :
    ∃ v, remapPixelN img77 2 2 c 2 y x = some v := by
  have hco : ∀ i, i < 2 → tileLowN 2 2 i = i := by
    intro i hi
    interval_cases i
    · unfold tileLowN tileCoordN
      rw [floorQEval _ 0 (by norm_num) (by norm_num)]
      rfl
    · unfold tileLowN tileCoordN
      rw [floorQEval _ 1 (by norm_num) (by norm_num)]
      rfl
  unfold remapPixelN
  rw [if_neg (by norm_num)]
  rw [if_pos ⟨by rw [hco y hy]; omega, by rw [hco x hx]; omega⟩]
  exact ⟨_, rfl⟩

/- Claim theorems. -/

/-- C1 (counterexample): the claim states that the integer clip count used to cap
histogram bins always equals `max(1, ⌊c · N / 256⌋)`.  The numpy engine's clip
count (numpy_clahe.py line 93) has no `max(1, …)`: at `c = 1.0` and tile pixel
count `N = 100` it is `0`, while the claimed formula gives `1`. -/
theorem c1_counterexample : clipValueNumpy 1 100 ≠ specClipCount 1 100 := by
  unfold clipValueNumpy specClipCount
  rw [pyIntNonnegEval _ 0 (by norm_num) (by norm_num) (by norm_num)]
  rw [floorQEval _ 0 (by norm_num) (by norm_num)]
  norm_num

/-- C1 (amended): for `c ≥ 1`, the headless engine's clip count equals
`max(1, ⌊c · N / 256⌋)` and is at least 1, while the numpy engine's clip count is
the bare `⌊c · N / 256⌋`; the two agree whenever `c · N ≥ 256` (in particular the
numpy clip count is zero — not one — on tiles with `c · N < 256`). -/
theorem c1_amended (c : ℚ) (n : ℕ) (hc : 1 ≤ c) :
    clipValueHeadless c n = specClipCount c n ∧ 1 ≤ clipValueHeadless c n ∧
      clipValueNumpy c n = ⌊c * n / 256⌋ ∧
      ((256 : ℚ) ≤ c * n → clipValueNumpy c n = specClipCount c n) := by
  have hc0 : (0 : ℚ) ≤ c := le_trans zero_le_one hc
  have h0 : (0 : ℚ) ≤ c * n / 256 :=
    div_nonneg (mul_nonneg hc0 (Nat.cast_nonneg n)) (by norm_num)
  have hpy : pyInt (c * n / 256) = ⌊c * n / 256⌋ := pyInt_eq_floor _ h0
  refine ⟨?_, le_max_left _ _, hpy, ?_⟩
  · unfold clipValueHeadless specClipCount
    rw [hpy]
  · intro h256
    unfold clipValueNumpy specClipCount
    rw [hpy, max_eq_right]
    exact Int.le_floor.2 (by rw [le_div_iff₀ (by norm_num : (0:ℚ) < 256)]; push_cast; linarith)

/-- C1 (witness): the amended statement at `c = 2`, `N = 512`. -/
theorem c1_witness :
    (1 : ℚ) ≤ 2 ∧
      (clipValueHeadless 2 512 = specClipCount 2 512 ∧ 1 ≤ clipValueHeadless 2 512 ∧
        clipValueNumpy 2 512 = ⌊(2 : ℚ) * (512 : ℕ) / 256⌋ ∧
        ((256 : ℚ) ≤ 2 * (512 : ℕ) → clipValueNumpy 2 512 = specClipCount 2 512)) :=
  ⟨by norm_num, c1_amended 2 512 (by norm_num)⟩

/-- C2: the clip-and-redistribute step caps each bin at `k`, adds
`excess / 256` to every bin and one more to bins `0 .. excess % 256 - 1`
(the headless `if excess > 0` guard changes nothing), and the histogram total
is preserved exactly: for a tile histogram summing to `N`, the sum is `N`
again afterwards. -/
theorem c2_mass_preserved (hist : ℕ → ℕ) (k : ℕ) :
    (∀ i, headlessClipStep hist k i = clipRedistribute hist k i) ∧
      ∑ i ∈ Finset.range 256, clipRedistribute hist k i = ∑ i ∈ Finset.range 256, hist i := by
  constructor
  · intro i
    unfold headlessClipStep
    by_cases hex : 0 < excessOf hist k
    · rw [if_pos hex]
    · rw [if_neg hex]
      have h0 : excessOf hist k = 0 := by omega
      unfold clipRedistribute
      rw [h0]
      simp
  · unfold clipRedistribute
    rw [Finset.sum_add_distrib, Finset.sum_add_distrib]
    have h1 : ∑ _i ∈ Finset.range 256, excessOf hist k / 256 = 256 * (excessOf hist k / 256) := by
      rw [Finset.sum_const, Finset.card_range, smul_eq_mul]
    have h2 : ∑ i ∈ Finset.range 256, (if i < excessOf hist k % 256 then 1 else 0) =
        excessOf hist k % 256 := by
      have hr : excessOf hist k % 256 < 256 := Nat.mod_lt _ (by norm_num)
      rw [Finset.sum_boole]
      have hfil : (Finset.range 256).filter (fun i => i < excessOf hist k % 256) =
          Finset.range (excessOf hist k % 256) := by
        ext a
        simp only [Finset.mem_filter, Finset.mem_range]
        omega
      rw [hfil, Finset.card_range, Nat.cast_id]
    have h3 : ∑ i ∈ Finset.range 256, clippedHist hist k i + excessOf hist k =
        ∑ i ∈ Finset.range 256, hist i := by
      unfold excessOf
      rw [← Finset.sum_add_distrib]
      apply Finset.sum_congr rfl
      intro i _
      unfold clippedHist
      omega
    have h4 : 256 * (excessOf hist k / 256) + excessOf hist k % 256 = excessOf hist k :=
      Nat.div_add_mod _ 256
    omega

/-- C5: on the well-formed input `H = W = 10`, `G = 4`, `c = 2` (satisfying
`H ≥ G`, `W ≥ G`, `G ∈ [2, 16]`, `c ∈ [1, 40]`), the numpy remap stage computes
the unclamped low tile row index `4 = G` for pixel row 9 and the LUT access
`lookup_tables[4, …]` is outside the `G × G` table: the pixel raises
`IndexError` (modelled `none`) instead of producing a value. -/
theorem c5_index_crash :
    tileLowN 10 4 9 = 4 ∧ remapPixelN constImg10 10 10 2 4 9 0 = none := by
  have htl : tileLowN 10 4 9 = 4 := by
    unfold tileLowN tileCoordN
    rw [floorQEval _ 4 (by norm_num) (by norm_num)]
    rfl
  refine ⟨htl, ?_⟩
  unfold remapPixelN
  rw [if_neg (by norm_num)]
  rw [if_neg ?_]
  rw [htl]
  simp

set_option maxRecDepth 100000 in
/-- C3 (counterexample): the claim states that every produced tile LUT is
monotone with entries in `[0, 255]`.  In the invocation of the headless engine
on the 4 × 4 image `img4` with `c = 2`, `G = 2` (valid parameters), tile `(0, 0)`
holds the four distinct values 100, 110, 120, 130; no clipping occurs, bins
`0 .. 99` have zero CDF, and LUT entry 0 is `(0 - 1) / (4 - 1) · 255 = -85`,
strictly below the claimed range. -/
theorem c3_counterexample : lutH img4 4 4 2 2 0 0 0 < 0 := by
  have hsize : tileSizeH 4 4 2 0 0 = 4 := by decide
  have hk : clipKH 2 (tileSizeH 4 4 2 0 0) = 1 := by
    rw [hsize]
    unfold clipKH
    rw [pyIntNonnegEval _ 0 (by norm_num) (by norm_num) (by norm_num)]
    rfl
  have hex : excessOf (tileRawHistH img4 4 4 2 0 0) 1 = 0 := by decide
  have hmin : cdfMin (clippedHist (tileRawHistH img4 4 4 2 0 0) 1) = 1 := by decide
  have hc0 : cdf (clippedHist (tileRawHistH img4 4 4 2 0 0) 1) 0 = 0 := by decide
  have hc255 : cdf (clippedHist (tileRawHistH img4 4 4 2 0 0) 1) 255 = 4 := by decide
  unfold lutH tileFinalHistH headlessClipStep
  rw [if_neg (by rw [hsize]; norm_num), hk, hex]
  rw [if_neg (lt_irrefl 0)]
  unfold lutQHeadless
  rw [hmin, hc0, hc255]
  rw [if_pos (by norm_num)]
  norm_num

/-- C3 (amended): every headless-engine LUT is monotonically non-decreasing and
bounded above by 255, and its entries are nonnegative at every bin whose CDF is
positive; entries at bins below the first occupied bin may however be negative
(the numpy engine additionally wraps those negatives through its `uint8` cast). -/
theorem c3_amended (hist : ℕ → ℕ) (i j : ℕ) (hij : i ≤ j) (hj : j ≤ 255) :
    lutQHeadless hist i ≤ lutQHeadless hist j ∧ lutQHeadless hist j ≤ 255 ∧
      (0 < cdf hist i → 0 ≤ lutQHeadless hist i) := by
  have hmono : cdf hist i ≤ cdf hist j := cdf_mono hist hij
  have hj255 : cdf hist j ≤ cdf hist 255 := cdf_mono hist hj
  unfold lutQHeadless
  by_cases hbr : cdfMin hist < cdf hist 255
  · simp only [if_pos hbr]
    obtain ⟨f1, f2, f3⟩ := lutFormulaFacts (cdf hist i) (cdf hist j) (cdf hist 255)
      (cdfMin hist) hmono hj255 hbr
    exact ⟨f1, f2, fun hpos => f3 (cdfMin_le_cdf hist i (by omega) hpos)⟩
  · simp only [if_neg hbr]
    refine ⟨?_, ?_, fun _ => Nat.cast_nonneg i⟩
    · exact_mod_cast hij
    · exact_mod_cast hj

/-- C3 (witness): the amended statement at the all-ones histogram, bins 3 and 7. -/
theorem c3_witness :
    (3 : ℕ) ≤ 7 ∧ (7 : ℕ) ≤ 255 ∧
      (lutQHeadless histOne 3 ≤ lutQHeadless histOne 7 ∧ lutQHeadless histOne 7 ≤ 255 ∧
        (0 < cdf histOne 3 → 0 ≤ lutQHeadless histOne 3)) :=
  ⟨by norm_num, by norm_num, c3_amended histOne 3 7 (by norm_num) (by norm_num)⟩

/-- C4 (counterexample): the claim states the remap stage maps every pixel via
`ty = (y + 0.5) · G / H - 0.5`, clamps into `[0, G-1]` before taking floors and
weights, and keeps all interpolation weights in `[0, 1]`.  The numpy remap stage
(numpy_clahe.py lines 121-132) divides by `⌊H / G⌋` and clamps nothing above nor
the weight below: with `H = 4`, `G = 2` its weight at row 0 is `-1/4 < 0`, and
with `H = 5`, `G = 2` its coordinate for row 0 differs from the claimed formula. -/
theorem c4_counterexample :
    tileWeightN 4 2 0 < 0 ∧ tileCoordN 5 2 0 ≠ ((0 : ℚ) + 1/2) * 2 / 5 - 1/2 := by
  constructor
  · unfold tileWeightN tileLowN tileCoordN
    rw [floorQEval _ (-1) (by norm_num) (by norm_num)]
    norm_num
  · unfold tileCoordN
    norm_num

/-- C4 (amended): the headless remap stage satisfies the claim: its raw
coordinate equals `(i + 0.5) · G / n - 0.5`, it is clamped into `[0, G-1]`
before the floor and the fractional weight are taken, the fractional weight lies
in `[0, 1)`, and both tile indices stay below `G`.  The numpy remap stage
instead divides by `⌊n / G⌋` and clamps only the integer index from below, so
its weights can be negative and its low index can reach `G`. -/
theorem c4_amended (n G i : ℕ) (hG : 0 < G) :
    tileCoordRawH n G i = ((i : ℚ) + 1/2) * G / n - 1/2 ∧
      0 ≤ tileCoordH n G i ∧ tileCoordH n G i ≤ (G : ℚ) - 1 ∧
      0 ≤ tileFracH n G i ∧ tileFracH n G i < 1 ∧
      tileIdxH n G i < G ∧ tileNextH n G i < G := by
  have hG1 : (1 : ℚ) ≤ (G : ℚ) := by exact_mod_cast hG
  have h0 : 0 ≤ tileCoordH n G i := le_max_left 0 _
  have hle : tileCoordH n G i ≤ (G : ℚ) - 1 := by
    unfold tileCoordH
    exact max_le (by linarith) (min_le_left _ _)
  have hfl0 : 0 ≤ ⌊tileCoordH n G i⌋ := Int.floor_nonneg.2 h0
  have hidx : tileIdxH n G i = (⌊tileCoordH n G i⌋).toNat := by
    unfold tileIdxH pyInt
    rw [if_neg (not_lt.2 h0)]
  have hcast : ((tileIdxH n G i : ℕ) : ℚ) = (⌊tileCoordH n G i⌋ : ℚ) := by
    rw [hidx]
    exact_mod_cast Int.toNat_of_nonneg hfl0
  have hfrac0 : 0 ≤ tileFracH n G i := by
    unfold tileFracH
    rw [hcast]
    exact sub_nonneg.2 (Int.floor_le _)
  have hfrac1 : tileFracH n G i < 1 := by
    unfold tileFracH
    rw [hcast]
    have := Int.lt_floor_add_one (tileCoordH n G i)
    linarith
  have hfloorle : ⌊tileCoordH n G i⌋ ≤ (G : ℤ) - 1 := by
    have hrw : ((G : ℤ) - 1 : ℤ) = ⌊((G : ℚ) - 1)⌋ := by
      rw [show ((G : ℚ) - 1) = (((G : ℤ) - 1 : ℤ) : ℚ) by push_cast; ring, Int.floor_intCast]
    rw [hrw]
    exact Int.floor_le_floor hle
  have hidxG : tileIdxH n G i < G := by
    rw [hidx]
    omega
  have hnext : tileNextH n G i < G := by
    unfold tileNextH
    omega
  refine ⟨?_, h0, hle, hfrac0, hfrac1, hidxG, hnext⟩
  unfold tileCoordRawH
  rw [div_div_eq_mul_div]

/-- C4 (witness): the amended statement at `n = 4`, `G = 2`, `i = 0`. -/
theorem c4_witness :
    0 < 2 ∧
      (tileCoordRawH 4 2 0 = (((0 : ℕ) : ℚ) + 1/2) * ((2 : ℕ) : ℚ) / ((4 : ℕ) : ℚ) - 1/2 ∧
        0 ≤ tileCoordH 4 2 0 ∧ tileCoordH 4 2 0 ≤ ((2 : ℕ) : ℚ) - 1 ∧
        0 ≤ tileFracH 4 2 0 ∧ tileFracH 4 2 0 < 1 ∧
        tileIdxH 4 2 0 < 2 ∧ tileNextH 4 2 0 < 2) :=
  ⟨by norm_num, c4_amended 4 2 0 (by norm_num)⟩

/-- C6: the `a` and `b` channels pass through both pipelines unchanged: the LAB
array handed to the LAB-to-RGB stage carries exactly the `a` and `b` values the
RGB-to-LAB stage produced, and only the L channel is replaced by the remapped
values (the headless pipeline is total; the numpy pipeline is compared beneath
its `Option`, which is `none` exactly when its engine raises). -/
theorem c6_chroma_preserved (img : ℕ → ℕ → Fin 3 → ℕ) (H W : ℕ) (c : ℚ) (G y x : ℕ) :
    labHandedHeadless img H W c G y x 1 = rgbToLabHeadless img y x 1 ∧
      labHandedHeadless img H W c G y x 2 = rgbToLabHeadless img y x 2 ∧
      (labHandedNumpy img H W c G).map (fun lab => lab y x 1) =
        (labHandedNumpy img H W c G).map (fun _ => rgbToLabNumpy img y x 1) ∧
      (labHandedNumpy img H W c G).map (fun lab => lab y x 2) =
        (labHandedNumpy img H W c G).map (fun _ => rgbToLabNumpy img y x 2) := by
  have h1 : (1 : Fin 3) ≠ 0 := by decide
  have h2 : (2 : Fin 3) ≠ 0 := by decide
  refine ⟨?_, ?_, ?_, ?_⟩
  · unfold labHandedHeadless labUpdateL
    rw [if_neg h1]
  · unfold labHandedHeadless labUpdateL
    rw [if_neg h2]
  · unfold labHandedNumpy
    cases applyClaheNumpyOpt (fun y x => lQuantNumpy (rgbToLabNumpy img y x 0)) H W c G with
    | none => rfl
    | some rows =>
      simp only [Option.map_some']
      unfold labUpdateL
      rw [if_neg h1]
  · unfold labHandedNumpy
    cases applyClaheNumpyOpt (fun y x => lQuantNumpy (rgbToLabNumpy img y x 0)) H W c G with
    | none => rfl
    | some rows =>
      simp only [Option.map_some']
      unfold labUpdateL
      rw [if_neg h2]

/-- C7 (counterexample): the claim states the 8-bit L grid fed to the CLAHE
engine equals `round(L · 255 / 100)` clamped to `[0, 255]`.  The numpy pipeline
(numpy_clahe.py line 163) instead feeds `trunc((L + 16) / 116 · 255)`: at
`L = 0` it feeds 35, while the claimed formula gives 0. -/
theorem c7_counterexample : lQuantNumpy 0 ≠ specLQuant 0 := by
  have harg : ((0 : ℝ) + 16) / 116 * 255 = 1020 / 29 := by norm_num
  have hfl : ⌊(1020 / 29 : ℝ)⌋ = 35 := by
    rw [Int.floor_eq_iff]
    constructor
    · norm_num
    · norm_num
  have h1 : lQuantNumpy 0 = 35 := by
    unfold lQuantNumpy pyUint8R pyTruncR
    rw [harg, if_neg (by norm_num), hfl]
    rfl
  have h2 : specLQuant 0 = 0 := by
    unfold specLQuant
    rw [show (0 : ℝ) * 255 / 100 = 0 by norm_num, round_zero]
    rfl
  rw [h1, h2]
  norm_num

/-- C7 (amended): the numpy pipeline feeds `trunc((L + 16) / 116 · 255)` and
inverts on exit with the matching affine map `v / 255 · 116 - 16`, a consistent
round trip with error below `116 / 255`; the headless pipeline feeds `trunc(L)`
(its 8-bit grid occupies only `[0, 100]`) and writes the engine output back as L
without any rescaling, so its quantize-dequantize round trip is plain truncation.
Neither grid equals `round(L · 255 / 100)`. -/
theorem c7_amended (L : ℝ) (h0 : 0 ≤ L) (h1 : L ≤ 100) :
    (lDequantNumpy (lQuantNumpy L) ≤ L ∧ L - 116 / 255 < lDequantNumpy (lQuantNumpy L)) ∧
      (lDequantHeadless (lQuantHeadless L) ≤ L ∧
        L - 1 < lDequantHeadless (lQuantHeadless L)) := by
  have hs0 : 0 ≤ (L + 16) / 116 * 255 :=
    mul_nonneg (div_nonneg (by linarith) (by norm_num)) (by norm_num)
  have hs255 : (L + 16) / 116 * 255 ≤ 255 := by
    rw [div_mul_eq_mul_div, div_le_iff₀ (by norm_num : (0:ℝ) < 116)]
    linarith
  have hfl0 : 0 ≤ ⌊(L + 16) / 116 * 255⌋ := Int.floor_nonneg.2 hs0
  have hfl255 : ⌊(L + 16) / 116 * 255⌋ ≤ 255 := by
    have hc : (⌊(L + 16) / 116 * 255⌋ : ℝ) ≤ 255 := le_trans (Int.floor_le _) hs255
    exact_mod_cast hc
  have hquant : lQuantNumpy L = (⌊(L + 16) / 116 * 255⌋).toNat := by
    unfold lQuantNumpy pyUint8R pyTruncR
    rw [if_neg (not_lt.2 hs0), Int.emod_eq_of_lt hfl0 (by omega)]
  have hcast : ((lQuantNumpy L : ℕ) : ℝ) = (⌊(L + 16) / 116 * 255⌋ : ℝ) := by
    rw [hquant]
    exact_mod_cast Int.toNat_of_nonneg hfl0
  have hsL : (L + 16) / 116 * 255 / 255 * 116 = L + 16 := by
    field_simp
    ring
  constructor
  · constructor
    · unfold lDequantNumpy
      rw [hcast]
      have hle : (⌊(L + 16) / 116 * 255⌋ : ℝ) ≤ (L + 16) / 116 * 255 := Int.floor_le _
      have hmul : (⌊(L + 16) / 116 * 255⌋ : ℝ) / 255 * 116 ≤ (L + 16) / 116 * 255 / 255 * 116 := by
        apply mul_le_mul_of_nonneg_right _ (by norm_num : (0:ℝ) ≤ 116)
        exact div_le_div_of_nonneg_right hle (by norm_num)
      rw [hsL] at hmul
      linarith
    · unfold lDequantNumpy
      rw [hcast]
      have hgt : (L + 16) / 116 * 255 - 1 < (⌊(L + 16) / 116 * 255⌋ : ℝ) := by
        have := Int.lt_floor_add_one ((L + 16) / 116 * 255)
        linarith
      have hmul : ((L + 16) / 116 * 255 - 1) / 255 * 116 < (⌊(L + 16) / 116 * 255⌋ : ℝ) / 255 * 116 := by
        apply mul_lt_mul_of_pos_right _ (by norm_num : (0:ℝ) < 116)
        exact div_lt_div_of_pos_right hgt (by norm_num)
      have hval : ((L + 16) / 116 * 255 - 1) / 255 * 116 = L + 16 - 116 / 255 := by
        field_simp
        ring
      rw [hval] at hmul
      linarith
  · have hLf0 : 0 ≤ ⌊L⌋ := Int.floor_nonneg.2 h0
    have hLf100 : ⌊L⌋ ≤ 100 := by
      have hc : (⌊L⌋ : ℝ) ≤ 100 := le_trans (Int.floor_le L) h1
      exact_mod_cast hc
    have hq : lQuantHeadless L = (⌊L⌋).toNat := by
      unfold lQuantHeadless pyUint8R pyTruncR
      rw [if_neg (not_lt.2 h0), Int.emod_eq_of_lt hLf0 (by omega)]
    have hc2 : ((lQuantHeadless L : ℕ) : ℝ) = (⌊L⌋ : ℝ) := by
      rw [hq]
      exact_mod_cast Int.toNat_of_nonneg hLf0
    unfold lDequantHeadless
    rw [hc2]
    constructor
    · exact Int.floor_le L
    · have := Int.lt_floor_add_one L
      linarith

/-- C7 (witness): the amended statement at `L = 50`. -/
theorem c7_witness :
    (0 ≤ (50 : ℝ) ∧ (50 : ℝ) ≤ 100) ∧
      ((lDequantNumpy (lQuantNumpy 50) ≤ 50 ∧
          (50 : ℝ) - 116 / 255 < lDequantNumpy (lQuantNumpy 50)) ∧
        (lDequantHeadless (lQuantHeadless 50) ≤ 50 ∧
          (50 : ℝ) - 1 < lDequantHeadless (lQuantHeadless 50))) :=
  ⟨⟨by norm_num, by norm_num⟩, c7_amended 50 (by norm_num) (by norm_num)⟩

/-- C8 (counterexample): the claim states that every input with `clip_limit < 1`
is rejected with an `InvalidParameter` error before any processing.  The numpy
engine performs no validation: invoked with `c = 1/2 < 1` on a well-formed
2 × 2 image with `G = 2`, it runs to completion and returns an output grid
(`isSome`), not an error. -/
theorem c8_counterexample : (applyClaheNumpyOpt img77 2 2 (1/2) 2).isSome = true := by
  obtain ⟨v00, e00⟩ := remap22Some (1/2) 0 0 (by norm_num) (by norm_num)
  obtain ⟨v01, e01⟩ := remap22Some (1/2) 0 1 (by norm_num) (by norm_num)
  obtain ⟨v10, e10⟩ := remap22Some (1/2) 1 0 (by norm_num) (by norm_num)
  obtain ⟨v11, e11⟩ := remap22Some (1/2) 1 1 (by norm_num) (by norm_num)
  unfold applyClaheNumpyOpt
  have hr : List.range 2 = [0, 1] := by decide
  rw [hr]
  simp only [List.mapM, List.mapM.loop, e00, e01, e10, e11]
  rfl

/-- C8 (amended): neither engine validates its parameters.  For every
`0 ≤ c < 1` the numpy engine accepts the call: its clip count truncates to 0
(the whole histogram mass is redistributed) and on a well-formed 2 × 2 image
with `G = 2` it computes an output grid rather than reporting any error value;
the only error reporting by value in the pipeline is the generic exception
handler of `apply_clahe_processing`. -/
theorem c8_amended (c : ℚ) (h0 : 0 ≤ c) (h1 : c < 1) :
    (clipValueNumpy c 1).toNat = 0 ∧ (applyClaheNumpyOpt img77 2 2 c 2).isSome = true := by
  constructor
  · unfold clipValueNumpy
    rw [pyIntNonnegEval _ 0 ?ha ?hb ?hc]
    · rfl
    case ha =>
      exact div_nonneg (mul_nonneg h0 (by norm_num)) (by norm_num)
    case hb =>
      push_cast
      exact div_nonneg (mul_nonneg h0 (by norm_num)) (by norm_num)
    case hc =>
      push_cast
      rw [mul_one, div_lt_iff₀ (by norm_num : (0:ℚ) < 256)]
      linarith
  · obtain ⟨v00, e00⟩ := remap22Some c 0 0 (by norm_num) (by norm_num)
    obtain ⟨v01, e01⟩ := remap22Some c 0 1 (by norm_num) (by norm_num)
    obtain ⟨v10, e10⟩ := remap22Some c 1 0 (by norm_num) (by norm_num)
    obtain ⟨v11, e11⟩ := remap22Some c 1 1 (by norm_num) (by norm_num)
    unfold applyClaheNumpyOpt
    have hr : List.range 2 = [0, 1] := by decide
    rw [hr]
    simp only [List.mapM, List.mapM.loop, e00, e01, e10, e11]
    rfl

/-- C8 (witness): the amended statement at `c = 1/2`. -/
theorem c8_witness :
    ((0 : ℚ) ≤ 1/2 ∧ (1/2 : ℚ) < 1) ∧
      ((clipValueNumpy (1/2) 1).toNat = 0 ∧
        (applyClaheNumpyOpt img77 2 2 (1/2) 2).isSome = true) :=
  ⟨⟨by norm_num, by norm_num⟩, c8_amended (1/2) (by norm_num) (by norm_num)⟩

/-- C10: invoked with exactly the four documented arguments (argv length 5,
program name included), clahe_processor.py prints the failure JSON carrying the
usage string and exits with code 1; the processing path is reachable exactly
when the argument vector has length 6 — one more argument than the usage string
(with its four placeholders) documents. -/
theorem c10_arg_check (argv : List String) (h : argv.length = 5) :
    claheProcessorMain argv = ProcessorOutcome.failJson usageProcessor 1 ∧
      usageProcessor.toList.count '<' = 4 ∧
      (∀ a2 : List String, reachesProcessing a2 = true ↔ a2.length = 6) := by
  refine ⟨?_, by decide, ?_⟩
  · unfold claheProcessorMain
    rw [if_pos (by omega)]
  · intro a2
    unfold reachesProcessing claheProcessorMain
    by_cases hl : a2.length = 6
    · rw [if_neg (by omega)]
      simp [hl]
    · rw [if_pos (by omega)]
      simp [hl]

/-- C10 (witness): an invocation carrying the four documented arguments. -/
theorem c10_witness :
    argvFive.length = 5 ∧
      (claheProcessorMain argvFive = ProcessorOutcome.failJson usageProcessor 1 ∧
        usageProcessor.toList.count '<' = 4 ∧
        (∀ a2 : List String, reachesProcessing a2 = true ↔ a2.length = 6)) :=
  ⟨rfl, c10_arg_check argvFive rfl⟩

theorem rpow_div_natCast_pow (x : ℝ) (hx : 0 ≤ x) (p q : ℕ) (hq : 0 < q) :
    (x ^ (((p : ℕ) : ℝ) / ((q : ℕ) : ℝ))) ^ q = x ^ p := by
  have hq0 : ((q : ℕ) : ℝ) ≠ 0 := Nat.cast_ne_zero.2 (by omega)
  rw [← Real.rpow_natCast (x ^ (((p : ℕ) : ℝ) / ((q : ℕ) : ℝ))) q, ← Real.rpow_mul hx,
    div_mul_cancel₀ _ hq0, Real.rpow_natCast]

theorem rpow_div_natCast_lt (x c : ℝ) (hx : 0 ≤ x) (hc : 0 ≤ c) (p q : ℕ) (hq : 0 < q)
    (h : x ^ p < c ^ q) : x ^ (((p : ℕ) : ℝ) / ((q : ℕ) : ℝ)) < c := by
  have hkey := rpow_div_natCast_pow x hx p q hq
  rw [← hkey] at h
  exact lt_of_pow_lt_pow_left₀ q hc h

theorem lt_rpow_div_natCast (x c : ℝ) (hx : 0 ≤ x) (hc : 0 ≤ c) (p q : ℕ) (hq : 0 < q)
    (h : c ^ q < x ^ p) : c < x ^ (((p : ℕ) : ℝ) / ((q : ℕ) : ℝ)) := by
  have hkey := rpow_div_natCast_pow x hx p q hq
  rw [← hkey] at h
  exact lt_of_pow_lt_pow_left₀ q (Real.rpow_nonneg hx _) h

theorem headlessGraySums (s : ℝ) :
    s * 0.212671 + s * 0.715160 + s * 0.072169 = s ∧
      (s * 0.412453 + s * 0.357580 + s * 0.180423) / 0.950456 = s ∧
      (s * 0.019334 + s * 0.119193 + s * 0.950227) / 1.088754 = s := by
  refine ⟨by ring, ?_, ?_⟩
  · rw [div_eq_iff (by norm_num : (0.950456 : ℝ) ≠ 0)]
    ring
  · rw [div_eq_iff (by norm_num : (1.088754 : ℝ) ≠ 0)]
    ring

theorem headlessGrayByte (r : ℝ) (hr1 : (0.0459 : ℝ) < r) (hr2 : r < 0.0479) :
    pyUint8R (max 0 (min 255 (srgbGamma r * 255))) ≤ 63 := by
  have hrgam : srgbGamma r = 1.055 * r ^ ((1 : ℝ) / 2.4) - 0.055 := by
    unfold srgbGamma
    rw [if_pos (by linarith)]
  have hexp : ((1 : ℝ) / 2.4) = ((5 : ℕ) : ℝ) / ((12 : ℕ) : ℝ) := by
    push_cast
    norm_num
  have hrpow : r ^ (((5 : ℕ) : ℝ) / ((12 : ℕ) : ℝ)) < 0.29 := by
    apply rpow_div_natCast_lt r 0.29 (by linarith) (by norm_num) 5 12 (by norm_num)
    calc r ^ 5 < (0.0479 : ℝ) ^ 5 := by
          apply pow_lt_pow_left₀ hr2 (by linarith)
          norm_num
      _ < (0.29 : ℝ) ^ 12 := by norm_num
  have hw0 : 0 ≤ r ^ (((5 : ℕ) : ℝ) / ((12 : ℕ) : ℝ)) :=
    Real.rpow_nonneg (by linarith) _
  have hout : srgbGamma r * 255 < 64 := by
    rw [hrgam, hexp]
    nlinarith [hrpow, hw0]
  have hm0 : (0 : ℝ) ≤ max 0 (min 255 (srgbGamma r * 255)) := le_max_left 0 _
  have hm64 : max 0 (min 255 (srgbGamma r * 255)) < 64 :=
    max_lt (by norm_num) (lt_of_le_of_lt (min_le_right _ _) hout)
  unfold pyUint8R pyTruncR
  rw [if_neg (not_lt.2 hm0)]
  have hfl0 : 0 ≤ ⌊max 0 (min 255 (srgbGamma r * 255))⌋ := Int.floor_nonneg.2 hm0
  have hfl64 : ⌊max 0 (min 255 (srgbGamma r * 255))⌋ < 64 := by
    rw [Int.floor_lt]
    push_cast
    exact hm64
  rw [Int.emod_eq_of_lt hfl0 (by omega)]
  omega

theorem headlessGrayAnalysis (xl : ℝ) (h1 : (0.046 : ℝ) < xl) (h2 : xl < 0.0478) :
    pyUint8R (max 0 (min 255 (srgbGamma (xl * 0.950456 * 3.240479 + xl * (-1.537150) +
        xl * 1.088754 * (-0.498535)) * 255))) ≤ 63 ∧
      (0 < xl * 0.950456 * 3.240479 + xl * (-1.537150) + xl * 1.088754 * (-0.498535) ∧
        xl * 0.950456 * 3.240479 + xl * (-1.537150) + xl * 1.088754 * (-0.498535) < 1) ∧
      (0 < xl * 0.950456 * (-0.969256) + xl * 1.875992 + xl * 1.088754 * 0.041556 ∧
        xl * 0.950456 * (-0.969256) + xl * 1.875992 + xl * 1.088754 * 0.041556 < 1) ∧
      (0 < xl * 0.950456 * 0.055648 + xl * (-0.204043) + xl * 1.088754 * 1.057311 ∧
        xl * 0.950456 * 0.055648 + xl * (-0.204043) + xl * 1.088754 * 1.057311 < 1) :=
  ⟨headlessGrayByte _ (by nlinarith) (by nlinarith),
    ⟨by nlinarith, by nlinarith⟩, ⟨by nlinarith, by nlinarith⟩, ⟨by nlinarith, by nlinarith⟩⟩

/-- C9: the code violates the claimed round-trip: `lab_to_rgb_exact`
(clahe_opencv_headless.py line 172) compares the CUBE of the f-value against
0.206893, but 0.206893 is the threshold for the f-value itself, so for every
f-value in `(0.2069, 0.5915)` the inverse takes the linear branch where the
forward direction took the cube root.  At the in-gamut gray pixel
`(100, 100, 100)` the round trip through `rgb_to_lab_exact` then
`lab_to_rgb_exact` returns a channel value at most 63 (the true value is about
61), an error of at least 37, far beyond the claimed ±1 — and the point is not
out of gamut: all three pre-companding linear channel values of the inverse
chain lie strictly inside `(0, 1)`. -/
theorem c9_roundtrip_failure :
    labToRgbHeadless (rgbToLabHeadless img100) 0 0 0 ≤ 63 ∧
      (0 < headlessInvLinear (rgbToLabHeadless img100) 0 0 0 ∧
        headlessInvLinear (rgbToLabHeadless img100) 0 0 0 < 1) ∧
      (0 < headlessInvLinear (rgbToLabHeadless img100) 0 0 1 ∧
        headlessInvLinear (rgbToLabHeadless img100) 0 0 1 < 1) ∧
      (0 < headlessInvLinear (rgbToLabHeadless img100) 0 0 2 ∧
        headlessInvLinear (rgbToLabHeadless img100) 0 0 2 < 1) := by
  have hB0 : (0 : ℝ) ≤ (4561 : ℝ) / 10761 := by norm_num
  have hgam : srgbInvGamma (((100 : ℕ) : ℝ) / 255) =
      ((4561 : ℝ) / 10761) ^ (((12 : ℕ) : ℝ) / ((5 : ℕ) : ℝ)) := by
    unfold srgbInvGamma
    rw [if_pos (by push_cast; norm_num)]
    rw [show ((((100 : ℕ) : ℝ) / 255) + 0.055) / 1.055 = (4561 : ℝ) / 10761 by
      push_cast; norm_num]
    congr 1
    push_cast
    norm_num
  have hugt : (0.008856 : ℝ) < ((4561 : ℝ) / 10761) ^ (((12 : ℕ) : ℝ) / ((5 : ℕ) : ℝ)) :=
    lt_rpow_div_natCast _ _ hB0 (by norm_num) 12 5 (by norm_num) (by norm_num)
  have hult : ((4561 : ℝ) / 10761) ^ (((12 : ℕ) : ℝ) / ((5 : ℕ) : ℝ)) < 0.206893 :=
    rpow_div_natCast_lt _ _ hB0 (by norm_num) 12 5 (by norm_num) (by norm_num)
  have hT1 : (0.5 : ℝ) < ((4561 : ℝ) / 10761) ^ (((4 : ℕ) : ℝ) / ((5 : ℕ) : ℝ)) :=
    lt_rpow_div_natCast _ _ hB0 (by norm_num) 4 5 (by norm_num) (by norm_num)
  have hT2 : ((4561 : ℝ) / 10761) ^ (((4 : ℕ) : ℝ) / ((5 : ℕ) : ℝ)) < 0.51 :=
    rpow_div_natCast_lt _ _ hB0 (by norm_num) 4 5 (by norm_num) (by norm_num)
  have hfwd : labFwdF (((4561 : ℝ) / 10761) ^ (((12 : ℕ) : ℝ) / ((5 : ℕ) : ℝ))) =
      ((4561 : ℝ) / 10761) ^ (((4 : ℕ) : ℝ) / ((5 : ℕ) : ℝ)) := by
    unfold labFwdF
    rw [if_pos hugt]
    rw [← Real.rpow_mul hB0]
    congr 1
    push_cast
    norm_num
  obtain ⟨hsum1, hsum2, hsum3⟩ := headlessGraySums (srgbInvGamma (((100 : ℕ) : ℝ) / 255))
  have hlab0 : rgbToLabHeadless img100 0 0 0 =
      116 * (((4561 : ℝ) / 10761) ^ (((4 : ℕ) : ℝ) / ((5 : ℕ) : ℝ))) - 16 := by
    simp only [rgbToLabHeadless, img100]
    rw [if_pos trivial]
    rw [hsum1, hgam, hfwd]
  have hlab1 : rgbToLabHeadless img100 0 0 1 = 0 := by
    simp only [rgbToLabHeadless, img100]
    rw [if_neg (by decide : ¬ ((1 : Fin 3) = 0)), if_pos trivial]
    rw [hsum2, hsum1]
    ring
  have hlab2 : rgbToLabHeadless img100 0 0 2 = 0 := by
    simp only [rgbToLabHeadless, img100]
    rw [if_neg (by decide : ¬ ((2 : Fin 3) = 0)), if_neg (by decide : ¬ ((2 : Fin 3) = 1))]
    rw [hsum1, hsum3]
    ring
  have hcube : (((4561 : ℝ) / 10761) ^ (((4 : ℕ) : ℝ) / ((5 : ℕ) : ℝ))) ^ (3 : ℕ) =
      ((4561 : ℝ) / 10761) ^ (((12 : ℕ) : ℝ) / ((5 : ℕ) : ℝ)) := by
    rw [← Real.rpow_natCast (((4561 : ℝ) / 10761) ^ (((4 : ℕ) : ℝ) / ((5 : ℕ) : ℝ))) 3,
      ← Real.rpow_mul hB0]
    congr 1
    push_cast
    norm_num
  have hnot : ¬ ((((4561 : ℝ) / 10761) ^ (((4 : ℕ) : ℝ) / ((5 : ℕ) : ℝ))) ^ (3 : ℕ) >
      0.206893) := by
    rw [hcube]
    exact not_lt.2 (le_of_lt hult)
  have hinvT : labInvFHeadless (((4561 : ℝ) / 10761) ^ (((4 : ℕ) : ℝ) / ((5 : ℕ) : ℝ))) =
      ((((4561 : ℝ) / 10761) ^ (((4 : ℕ) : ℝ) / ((5 : ℕ) : ℝ))) - 16 / 116) / 7.787 := by
    unfold labInvFHeadless
    rw [if_neg hnot]
  have hfyv : (116 * (((4561 : ℝ) / 10761) ^ (((4 : ℕ) : ℝ) / ((5 : ℕ) : ℝ))) - 16 + 16) /
      116 = ((4561 : ℝ) / 10761) ^ (((4 : ℕ) : ℝ) / ((5 : ℕ) : ℝ)) := by
    ring_nf
  have hfxv : ((4561 : ℝ) / 10761) ^ (((4 : ℕ) : ℝ) / ((5 : ℕ) : ℝ)) + 0 / 500 =
      ((4561 : ℝ) / 10761) ^ (((4 : ℕ) : ℝ) / ((5 : ℕ) : ℝ)) := by
    norm_num
  have hfzv : ((4561 : ℝ) / 10761) ^ (((4 : ℕ) : ℝ) / ((5 : ℕ) : ℝ)) - 0 / 200 =
      ((4561 : ℝ) / 10761) ^ (((4 : ℕ) : ℝ) / ((5 : ℕ) : ℝ)) := by
    norm_num
  have hxl1 : (0.046 : ℝ) <
      ((((4561 : ℝ) / 10761) ^ (((4 : ℕ) : ℝ) / ((5 : ℕ) : ℝ))) - 16 / 116) / 7.787 := by
    rw [lt_div_iff₀ (by norm_num : (0 : ℝ) < 7.787)]
    linarith [hT1]
  have hxl2 : ((((4561 : ℝ) / 10761) ^ (((4 : ℕ) : ℝ) / ((5 : ℕ) : ℝ))) - 16 / 116) /
      7.787 < 0.0478 := by
    rw [div_lt_iff₀ (by norm_num : (0 : ℝ) < 7.787)]
    linarith [hT2]
  obtain ⟨hby, hpr, hpg, hpb⟩ := headlessGrayAnalysis
    (((((4561 : ℝ) / 10761) ^ (((4 : ℕ) : ℝ) / ((5 : ℕ) : ℝ))) - 16 / 116) / 7.787)
    hxl1 hxl2
  refine ⟨?_, ?_, ?_, ?_⟩
  · simp only [labToRgbHeadless]
    rw [if_pos trivial]
    rw [hlab0, hlab1, hlab2, hfyv, hfxv, hfzv, hinvT]
    exact hby
  · simp only [headlessInvLinear]
    rw [if_pos trivial]
    rw [hlab0, hlab1, hlab2, hfyv, hfxv, hfzv, hinvT]
    exact hpr
  · simp only [headlessInvLinear]
    rw [if_neg (by decide : ¬ ((1 : Fin 3) = 0)), if_pos trivial]
    rw [hlab0, hlab1, hlab2, hfyv, hfxv, hfzv, hinvT]
    exact hpg
  · simp only [headlessInvLinear]
    rw [if_neg (by decide : ¬ ((2 : Fin 3) = 0)), if_neg (by decide : ¬ ((2 : Fin 3) = 1))]
    rw [hlab0, hlab1, hlab2, hfyv, hfxv, hfzv, hinvT]
    exact hpb
